import Mathlib

/-!
Shallow embedding of the watermark-tool repository core
(src/core/image_processor.py, src/core/video_processor.py,
src/ui/main_window.py) and proofs about the claims of its specification.

External primitives (OpenCV inpainting, codecs, ffmpeg) are modelled by
their call descriptors or by oracle parameters; everything the Python
code itself computes is translated directly.  Python floats are modelled
as rationals, Python int() as truncation toward zero.
-/

/-- Python int() applied to a rational: truncation toward zero
(floor for nonnegative values, ceiling for negative ones). -/
def pyInt (q : ℚ) : ℤ := if 0 ≤ q then ⌊q⌋ else ⌈q⌉

/-- The two inpainting algorithms selectable in the tool:
cv2.INPAINT_TELEA and cv2.INPAINT_NS. -/
inductive InpaintFlag
  | telea
  | ns
deriving DecidableEq, Repr

namespace ImageProcessor

/-- A decoded image: shape (height, width from numpy shape) plus an
abstract content token standing for the pixel data. -/
structure Img where
  h : ℕ
  w : ℕ
  data : ℕ
deriving DecidableEq, Repr

/-- Mutable state of ImageProcessor: watermark_region, inpaint_radius,
method, as set in __init__ / set_watermark_region. -/
structure ImgState where
  watermark_region : Option (ℤ × ℤ × ℤ × ℤ)
  inpaint_radius : ℕ
  method : String
deriving DecidableEq, Repr

/-- Descriptor of one cv2.inpaint invocation.  The mask built by the
code (zeros of the image shape with 255 over the region slice) is fully
determined by the image shape together with the region, so it is
represented by those values. -/
structure InpaintCall where
  img : Img
  mask_h : ℕ
  mask_w : ℕ
  region : ℤ × ℤ × ℤ × ℤ
  radius : ℕ
  flag : InpaintFlag
deriving DecidableEq, Repr

/-- ImageProcessor.set_watermark_region: stores the four arguments as a
tuple, with no clamping or validation. -/
def set_watermark_region (x y width height : ℤ) : ℤ × ℤ × ℤ × ℤ :=
  (x, y, width, height)

/-- ImageProcessor.remove_watermark, embedded as the cv2.inpaint call it
performs.  The source raises ValueError when no region is set or the
image cannot be read; the mask is zeros with 255 over the region; the
inpaint flag passed is always cv2.INPAINT_TELEA, regardless of
self.method (source line 63). -/
def remove_watermark (st : ImgState) (img : Option Img) :
    Except String InpaintCall :=
  match st.watermark_region with
  | none => Except.error "watermark region not set"
  | some region =>
    match img with
    | none => Except.error "cannot read image"
    | some image =>
      Except.ok
        { img := image, mask_h := image.h, mask_w := image.w,
          region := region, radius := st.inpaint_radius,
          flag := InpaintFlag.telea }

/-- ImageProcessor.preview_removal, embedded as the cv2.inpaint call it
performs.  Raises when no region is set; reading is unchecked, so a
failed read raises when image.shape is accessed; the flag follows
self.method: INPAINT_TELEA when method is telea, INPAINT_NS
otherwise. -/
def preview_removal (st : ImgState) (img : Option Img) :
    Except String InpaintCall :=
  match st.watermark_region with
  | none => Except.error "watermark region not set"
  | some region =>
    match img with
    | none => Except.error "NoneType has no attribute shape"
    | some image =>
      Except.ok
        { img := image, mask_h := image.h, mask_w := image.w,
          region := region, radius := st.inpaint_radius,
          flag := if st.method = "telea" then InpaintFlag.telea
                  else InpaintFlag.ns }

/-- One contour as returned by cv2.findContours, abstracted by the two
quantities the code queries: cv2.contourArea (a float, modelled as a
rational) and cv2.boundingRect. -/
structure Contour where
  area : ℚ
  rx : ℕ
  ry : ℕ
  rw : ℕ
  rh : ℕ
deriving DecidableEq, Repr

/-- Input to the detection pipeline after decoding: the image shape and
the contour list produced by the external threshold / morphology /
findContours primitives. -/
structure DecodedImage where
  h : ℕ
  w : ℕ
  contours : List Contour
deriving DecidableEq, Repr

/-- min_area threshold of auto_detect_watermark:
image.shape[0] * image.shape[1] * 0.001. -/
def min_area (im : DecodedImage) : ℚ := ((im.h * im.w : ℕ) : ℚ) * (1 / 1000)

/-- max_area threshold of auto_detect_watermark:
image.shape[0] * image.shape[1] * 0.2. -/
def max_area (im : DecodedImage) : ℚ := ((im.h * im.w : ℕ) : ℚ) * (1 / 5)

/-- The valid_contours filter of auto_detect_watermark: keep contours
whose area lies strictly between min_area and max_area. -/
def valid_contours (im : DecodedImage) : List Contour :=
  im.contours.filter (fun c => decide (min_area im < c.area ∧ c.area < max_area im))

/-- Scoring used when several contours remain:
solidity * (1 - abs (0.5 - center_y / image.shape[0])), where solidity
is area over bounding-rectangle area (0 when that area is 0) and
center_y is y + h / 2 with true division. -/
def contour_score (imgH : ℕ) (c : Contour) : ℚ :=
  let solidity : ℚ :=
    if c.rw * c.rh ≠ 0 then c.area / ((c.rw * c.rh : ℕ) : ℚ) else 0
  let center_y : ℚ := (c.ry : ℚ) + (c.rh : ℚ) / 2
  solidity * (1 - |1 / 2 - center_y / (imgH : ℚ)|)

/-- Padding and clamping applied to the winning bounding rectangle:
x = max(0, x - 5), y = max(0, y - 5), then
w = min(image.shape[1] - x, w + 10), h = min(image.shape[0] - y, h + 10). -/
def pad_and_clamp (imgW imgH : ℕ) (x y w h : ℕ) : ℤ × ℤ × ℤ × ℤ :=
  let x1 : ℤ := max 0 ((x : ℤ) - 5)
  let y1 : ℤ := max 0 ((y : ℤ) - 5)
  let w1 : ℤ := min ((imgW : ℤ) - x1) ((w : ℤ) + 2 * 5)
  let h1 : ℤ := min ((imgH : ℤ) - y1) ((h : ℤ) + 2 * 5)
  (x1, y1, w1, h1)

/-- Python max with a key over a nonempty list: returns the first
element whose key is maximal (later elements replace the current best
only on a strictly greater key). -/
def max_by_score (first : Contour × ℚ) (rest : List (Contour × ℚ)) : Contour × ℚ :=
  rest.foldl (fun best cand => if cand.2 > best.2 then cand else best) first

/-- The part of auto_detect_watermark that runs after a successful
decode (source lines 75-145); it is built from total operations and
cannot raise.  An empty contour list gives none; contours are filtered
by the strict area bounds; zero survivors give none; one survivor is
padded and returned; several survivors are scored and the best is
padded and returned. -/
def detect_result (im : DecodedImage) : Option (ℤ × ℤ × ℤ × ℤ) :=
  match im.contours with
  | [] => none
  | _ :: _ =>
    match valid_contours im with
    | [] => none
    | [c] => some (pad_and_clamp im.w im.h c.rx c.ry c.rw c.rh)
    | c0 :: c1 :: cs =>
      let feats := (c1 :: cs).map (fun c => (c, contour_score im.h c))
      let best := (max_by_score (c0, contour_score im.h c0) feats).1
      some (pad_and_clamp im.w im.h best.rx best.ry best.rw best.rh)

/-- ImageProcessor.auto_detect_watermark.  The argument is the decode
result: none models an unreadable image, in which case the source
raises ValueError (modelled by Except.error); otherwise the detection
body runs on the decoded frame. -/
def auto_detect_watermark (img : Option DecodedImage) :
    Except String (Option (ℤ × ℤ × ℤ × ℤ)) :=
  match img with
  | none => Except.error "cannot read image"
  | some im => Except.ok (detect_result im)

end ImageProcessor

namespace ImageLabel

/-- An integer rectangle as used by QRect in the UI code. -/
structure PyRect where
  x : ℤ
  y : ℤ
  w : ℤ
  h : ℤ
deriving DecidableEq, Repr

/-- The native-to-display mapping performed by MainWindow.detect_watermark
when it shows a detected region: scale_x and scale_y are the pixmap
dimensions divided by the original image dimensions, int() is applied to
each scaled component, and the pixmap offset is added to x and y. -/
def detectToDisplay (origW origH : ℕ) (pw ph : ℤ) (px py : ℤ) (r : PyRect) : PyRect :=
  let scale_x : ℚ := (pw : ℚ) / (origW : ℚ)
  let scale_y : ℚ := (ph : ℚ) / (origH : ℚ)
  { x := pyInt ((r.x : ℚ) * scale_x) + px
    y := pyInt ((r.y : ℚ) * scale_y) + py
    w := pyInt ((r.w : ℚ) * scale_x)
    h := pyInt ((r.h : ℚ) * scale_y) }

/-- ImageLabel.get_scaled_rect: maps the displayed selection rectangle
back to native coordinates by subtracting the pixmap offset and dividing
by self.scale_factor, then clamps x and y to [0, size], width and height
to the remaining extent, and truncates each component with int(). -/
def get_scaled_rect (scale_factor : ℚ) (origW origH : ℕ) (px py : ℤ)
    (sel : PyRect) : PyRect :=
  let x : ℚ := ((sel.x - px : ℤ) : ℚ) / scale_factor
  let y : ℚ := ((sel.y - py : ℤ) : ℚ) / scale_factor
  let w : ℚ := (sel.w : ℚ) / scale_factor
  let h : ℚ := (sel.h : ℚ) / scale_factor
  let x1 : ℚ := max 0 (min x (origW : ℚ))
  let y1 : ℚ := max 0 (min y (origH : ℚ))
  let w1 : ℚ := min w ((origW : ℚ) - x1)
  let h1 : ℚ := min h ((origH : ℚ) - y1)
  { x := pyInt x1, y := pyInt y1, w := pyInt w1, h := pyInt h1 }

/-- The display round trip as the code composes it: ImageLabel.scale_image
sets scale_factor and produces a pixmap of size
(int(origW * scale_factor), int(origH * scale_factor)); detect_watermark
maps a native region to display coordinates through that pixmap, and
get_scaled_rect maps the displayed rectangle back to native
coordinates. -/
def roundTrip (scale_factor : ℚ) (origW origH : ℕ) (px py : ℤ) (r : PyRect) : PyRect :=
  get_scaled_rect scale_factor origW origH px py
    (detectToDisplay origW origH ⌊(origW : ℚ) * scale_factor⌋
      ⌊(origH : ℚ) * scale_factor⌋ px py r)

end ImageLabel

namespace VideoProcessor

/-- VideoProcessor.set_watermark_region: stores
(int(x), int(y), int(w), int(h)); on integer arguments int() is the
identity, and no clamping is applied. -/
def set_watermark_region (x y w h : ℤ) : ℤ × ℤ × ℤ × ℤ :=
  (x, y, w, h)

/-- VideoProcessor.process_frame over an abstract frame type F.  The
inpaint oracle stands for mask construction plus cv2.inpaint (the mask
is the 255-rectangle of the region over the frame shape, so it is
identified by the region); an oracle error models any exception inside
the try block, which the source catches, returning the input frame. -/
def process_frame (F : Type) (region : Option (ℤ × ℤ × ℤ × ℤ))
    (radius : ℕ) (method : String)
    (inpaint : F → (ℤ × ℤ × ℤ × ℤ) → ℕ → InpaintFlag → Except String F)
    (frame : Option F) : Option F :=
  match frame, region with
  | none, _ => none
  | some f, none => some f
  | some f, some r =>
    match inpaint f r radius
        (if method = "telea" then InpaintFlag.telea else InpaintFlag.ns) with
    | Except.ok result => some result
    | Except.error _ => some f

/-- How the per-frame loop of process_video ended: all frames read and
written, the progress callback returned a falsy value, or an exception
was raised (division by zero when the metadata frame count is 0). -/
inductive LoopExit
  | completed
  | cancelled
  | raised
deriving DecidableEq, Repr

/-- The frame loop of process_video (source lines 142-159): for each
decoded frame, process and write it, increment current_frame, compute
progress = current_frame / total_frames * 100 and call the progress
callback; a falsy callback result returns False from inside the try.
Returns the delivered progress values in order, the number of frames
written, and how the loop ended. -/
def runLoop (F : Type) (total_frames : ℕ) (cb : ℕ → ℚ → Bool) :
    List F → ℕ → List ℚ × ℕ × LoopExit
  | [], i => ([], i, LoopExit.completed)
  | _ :: rest, i =>
    if total_frames = 0 then ([], i + 1, LoopExit.raised)
    else
      let progress : ℚ := ((i + 1 : ℕ) : ℚ) / (total_frames : ℚ) * 100
      if cb i progress then
        match runLoop F total_frames cb rest (i + 1) with
        | (log, k, ex) => (progress :: log, k, ex)
      else ([progress], i + 1, LoopExit.cancelled)

/-- The observable state of the external world for one process_video
run: whether cv2.VideoCapture(video_path).isOpened() is true, the frames
the capture yields before read() reports failure, the metadata frame
count CAP_PROP_FRAME_COUNT, and whether ffmpeg.run completes without
raising. -/
structure VideoWorld (F : Type) where
  capOpened : Bool
  frames : List F
  total_frames : ℕ
  muxOk : Bool

/-- Everything observable about one process_video run: ret is the value
the Python function returns; the remaining fields record whether the
scratch directory was created, whether it still exists after the call
returns, the progress values delivered, the number of stills written,
and whether the ffmpeg mux step was invoked. -/
structure RunOutcome where
  ret : Bool
  tempDirCreated : Bool
  tempDirExists : Bool
  progressLog : List ℚ
  framesWritten : ℕ
  muxRan : Bool
deriving DecidableEq, Repr

/-- VideoProcessor.process_video.  Guard: a falsy video_path (None or
empty) or an unset region returns False at once.  The scratch directory
temp_frames is then created; if the capture fails to open, the source
returns False before entering the try/finally, so the directory is left
in place.  Otherwise the frame loop runs inside the try; cancellation
and raised exceptions reach the finally block, which deletes the scratch
files and directory; on completion the ffmpeg mux runs and its failure
is caught after cleanup.  True is returned only when the loop completed
and the mux succeeded. -/
def process_video (F : Type) (video_path : Option String)
    (region : Option (ℤ × ℤ × ℤ × ℤ)) (world : VideoWorld F)
    (cb : ℕ → ℚ → Bool) : RunOutcome :=
  if video_path.getD "" = "" ∨ region = none then
    { ret := false, tempDirCreated := false, tempDirExists := false,
      progressLog := [], framesWritten := 0, muxRan := false }
  else if ¬ world.capOpened then
    { ret := false, tempDirCreated := true, tempDirExists := true,
      progressLog := [], framesWritten := 0, muxRan := false }
  else
    if (runLoop F world.total_frames cb world.frames 0).2.2 = LoopExit.completed then
      if world.muxOk then
        { ret := true, tempDirCreated := true, tempDirExists := false,
          progressLog := (runLoop F world.total_frames cb world.frames 0).1,
          framesWritten := (runLoop F world.total_frames cb world.frames 0).2.1,
          muxRan := true }
      else
        { ret := false, tempDirCreated := true, tempDirExists := false,
          progressLog := (runLoop F world.total_frames cb world.frames 0).1,
          framesWritten := (runLoop F world.total_frames cb world.frames 0).2.1,
          muxRan := true }
    else
      { ret := false, tempDirCreated := true, tempDirExists := false,
        progressLog := (runLoop F world.total_frames cb world.frames 0).1,
        framesWritten := (runLoop F world.total_frames cb world.frames 0).2.1,
        muxRan := false }

/-- One input of the ffmpeg invocation: either the still-image sequence
pattern with a framerate option, or a media file on disk. -/
inductive FfmpegInput
  | imageSeq (pattern : String) (framerate : ℕ)
  | mediaFile (path : String)
deriving DecidableEq, Repr

/-- Output options of the ffmpeg invocation as built by the source. -/
structure FfmpegOutputOpts where
  target : String
  vcodec : String
  pix_fmt : String
  speed_profile : String
  crf : ℕ
  acodec : String
deriving DecidableEq, Repr

/-- A complete ffmpeg command: its inputs, output options, and the
overwrite flag passed to ffmpeg.run. -/
structure FfmpegCommand where
  inputs : List FfmpegInput
  outputOpts : FfmpegOutputOpts
  overwrite : Bool
deriving DecidableEq, Repr

/-- The ffmpeg command built by process_video (source lines 161-173):
a single input, the frame pattern of the scratch directory at the source
frame rate, re-encoded with libx264 / yuv420p / veryfast / crf 23 and
acodec copy, overwriting the output. -/
def muxCommand (temp_dir output_path : String) (fps : ℕ) : FfmpegCommand :=
  { inputs := [FfmpegInput.imageSeq (temp_dir ++ "/frame_%06d.jpg") fps]
    outputOpts :=
      { target := output_path, vcodec := "libx264", pix_fmt := "yuv420p",
        speed_profile := "veryfast", crf := 23, acodec := "copy" }
    overwrite := true }

/-- Number of audio streams an ffmpeg input contributes, given that the
original source video has sourceAudioStreams of them: a still-image
sequence has none; a media file contributes the streams of that file. -/
def inputAudioStreams (sourceAudioStreams : ℕ) : FfmpegInput → ℕ
  | FfmpegInput.imageSeq _ _ => 0
  | FfmpegInput.mediaFile _ => sourceAudioStreams

/-- Audio streams available to the output container: with stream copy,
ffmpeg can only map audio present in some input. -/
def outputAudioStreams (sourceAudioStreams : ℕ) (cmd : FfmpegCommand) : ℕ :=
  (cmd.inputs.map (inputAudioStreams sourceAudioStreams)).sum

end VideoProcessor

/-- The Region invariant stated by the specification for a frame of the
given dimensions. -/
def regionInvariant (frameW frameH : ℤ) (r : ℤ × ℤ × ℤ × ℤ) : Prop :=
  0 ≤ r.1 ∧ 0 ≤ r.2.1 ∧ r.1 + r.2.2.1 ≤ frameW ∧ r.2.1 + r.2.2.2 ≤ frameH

instance (frameW frameH : ℤ) (r : ℤ × ℤ × ℤ × ℤ) :
    Decidable (regionInvariant frameW frameH r) := by
  unfold regionInvariant
  infer_instance

/-- Rewrite lemma: the frame loop on an exhausted capture. -/
theorem VideoProcessor.runLoop_nil (F : Type) (N : ℕ) (cb : ℕ → ℚ → Bool) (i : ℕ) :
    VideoProcessor.runLoop F N cb [] i = ([], i, VideoProcessor.LoopExit.completed) :=
  rfl

/-- Rewrite lemma: a frame with a zero metadata frame count raises at
the progress computation, after the frame was written. -/
theorem VideoProcessor.runLoop_cons_zero (F : Type) (cb : ℕ → ℚ → Bool)
    (a : F) (rest : List F) (i : ℕ) :
    VideoProcessor.runLoop F 0 cb (a :: rest) i =
      ([], i + 1, VideoProcessor.LoopExit.raised) := by
  simp [VideoProcessor.runLoop]

/-- Rewrite lemma: a frame whose progress callback returns true
continues the loop with the delivered value recorded. -/
theorem VideoProcessor.runLoop_cons_continue (F : Type) (N : ℕ) (cb : ℕ → ℚ → Bool)
    (a : F) (rest : List F) (i : ℕ) (hN : N ≠ 0)
    (hcb : cb i (((i + 1 : ℕ) : ℚ) / (N : ℚ) * 100) = true) :
    VideoProcessor.runLoop F N cb (a :: rest) i =
      ((((i + 1 : ℕ) : ℚ) / (N : ℚ) * 100) ::
          (VideoProcessor.runLoop F N cb rest (i + 1)).1,
        (VideoProcessor.runLoop F N cb rest (i + 1)).2) := by
  show (if N = 0 then _ else _) = _
  rw [if_neg hN]
  show (if cb i _ then _ else _) = _
  rw [if_pos hcb]

/-- Rewrite lemma: a frame whose progress callback returns false stops
the loop as a cancellation, after delivering the value. -/
theorem VideoProcessor.runLoop_cons_stop (F : Type) (N : ℕ) (cb : ℕ → ℚ → Bool)
    (a : F) (rest : List F) (i : ℕ) (hN : N ≠ 0)
    (hcb : cb i (((i + 1 : ℕ) : ℚ) / (N : ℚ) * 100) = false) :
    VideoProcessor.runLoop F N cb (a :: rest) i =
      ([((i + 1 : ℕ) : ℚ) / (N : ℚ) * 100], i + 1,
        VideoProcessor.LoopExit.cancelled) := by
  show (if N = 0 then _ else _) = _
  rw [if_neg hN]
  show (if cb i _ then _ else _) = _
  rw [hcb]
  rfl

/-- Helper: when the frame loop ends with completed, the number of
frames written equals the starting index plus the number of decoded
frames. -/
theorem VideoProcessor.runLoop_count (F : Type) (N : ℕ) (cb : ℕ → ℚ → Bool) :
    ∀ (l : List F) (i : ℕ),
      (VideoProcessor.runLoop F N cb l i).2.2 = VideoProcessor.LoopExit.completed →
      (VideoProcessor.runLoop F N cb l i).2.1 = i + l.length := by
  intro l
  induction l with
  | nil => intro i _; simp [VideoProcessor.runLoop_nil]
  | cons a rest ih =>
    intro i h
    by_cases hN : N = 0
    · subst hN
      rw [VideoProcessor.runLoop_cons_zero] at h
      simp at h
    · by_cases hcb : cb i (((i + 1 : ℕ) : ℚ) / (N : ℚ) * 100)
      · rw [VideoProcessor.runLoop_cons_continue F N cb a rest i hN hcb] at h ⊢
        have := ih (i + 1) h
        simp only [List.length_cons]
        rw [this]
        omega
      · rw [VideoProcessor.runLoop_cons_stop F N cb a rest i hN
          (Bool.of_not_eq_true hcb)] at h
        simp at h

/-- C1.  The claim says ImageProcessor.remove_watermark reconstructs
with the configured algorithm and equals preview_removal on the same
image, region and configuration.  Evaluated with method set to ns: the
batch path passes cv2.INPAINT_TELEA to cv2.inpaint while the preview
path passes cv2.INPAINT_NS, so the two calls disagree exactly in the
algorithm flag. -/
theorem C1_remove_watermark_ignores_method :
    (ImageProcessor.remove_watermark ⟨some (10, 10, 20, 20), 3, "ns"⟩
        (some ⟨100, 100, 0⟩)).map ImageProcessor.InpaintCall.flag =
      Except.ok InpaintFlag.telea ∧
    (ImageProcessor.preview_removal ⟨some (10, 10, 20, 20), 3, "ns"⟩
        (some ⟨100, 100, 0⟩)).map ImageProcessor.InpaintCall.flag =
      Except.ok InpaintFlag.ns ∧
    decide (InpaintFlag.telea = InpaintFlag.ns) = false := by
  refine ⟨rfl, ?_, rfl⟩
  rfl

/-- C2.  The claim says the muxing step copies the original audio into
the output container.  The ffmpeg command the code builds has exactly
one input, the still-image pattern of the scratch directory; no media
file is among the inputs, so no audio stream of the source reaches the
output even though acodec is set to copy. -/
theorem C2_mux_has_no_audio_source (temp_dir output_path : String)
    (fps srcAudio : ℕ) :
    (VideoProcessor.muxCommand temp_dir output_path fps).inputs =
      [VideoProcessor.FfmpegInput.imageSeq (temp_dir ++ "/frame_%06d.jpg") fps] ∧
    VideoProcessor.outputAudioStreams srcAudio
      (VideoProcessor.muxCommand temp_dir output_path fps) = 0 ∧
    (VideoProcessor.muxCommand temp_dir output_path fps).outputOpts.acodec = "copy" := by
  refine ⟨rfl, ?_, rfl⟩
  simp [VideoProcessor.outputAudioStreams, VideoProcessor.muxCommand,
    VideoProcessor.inputAudioStreams]

/-- C3.  The claim says the scratch directory no longer exists after any
run, including a decode-open failure.  Evaluated on a run whose capture
fails to open (with path and region set): the directory is created, the
function returns False, and the directory still exists, because the
early return precedes the try/finally that performs cleanup. -/
theorem C3_open_failure_leaks_scratch_dir :
    (VideoProcessor.process_video ℕ (some "input.mp4") (some (0, 0, 10, 10))
        ⟨false, [], 100, true⟩ (fun _ _ => true)).tempDirCreated = true ∧
    (VideoProcessor.process_video ℕ (some "input.mp4") (some (0, 0, 10, 10))
        ⟨false, [], 100, true⟩ (fun _ _ => true)).tempDirExists = true ∧
    (VideoProcessor.process_video ℕ (some "input.mp4") (some (0, 0, 10, 10))
        ⟨false, [], 100, true⟩ (fun _ _ => true)).ret = false := by
  refine ⟨?_, ?_, ?_⟩ <;> decide

/-- C4 counterexample.  A run cancelled by the progress sink at the
first frame and a run whose mux step fails both return False: the value
process_video returns is identical in the two outcomes, so they are not
distinguishable from the returned result, although the runs differ (the
cancelled run never reaches the mux, the failed run does). -/
theorem C4_counterexample :
    (VideoProcessor.process_video ℕ (some "input.mp4") (some (0, 0, 10, 10))
        ⟨true, [0], 1, true⟩ (fun _ _ => false)).ret = false ∧
    (VideoProcessor.process_video ℕ (some "input.mp4") (some (0, 0, 10, 10))
        ⟨true, [0], 1, false⟩ (fun _ _ => true)).ret = false ∧
    (VideoProcessor.process_video ℕ (some "input.mp4") (some (0, 0, 10, 10))
        ⟨true, [0], 1, true⟩ (fun _ _ => false)).muxRan = false ∧
    (VideoProcessor.process_video ℕ (some "input.mp4") (some (0, 0, 10, 10))
        ⟨true, [0], 1, false⟩ (fun _ _ => true)).muxRan = true := by
  refine ⟨?_, ?_, ?_, ?_⟩ <;> decide

/-- C4 as amended.  process_video returns True only if every decoded
frame was processed and written and the mux step ran and succeeded;
cancellation and mux failure both return False and are not
distinguishable in the returned value. -/
theorem C4_success_requires_all_frames_and_mux (F : Type)
    (video_path : Option String) (region : Option (ℤ × ℤ × ℤ × ℤ))
    (world : VideoProcessor.VideoWorld F) (cb : ℕ → ℚ → Bool)
    (h : (VideoProcessor.process_video F video_path region world cb).ret = true) :
    (VideoProcessor.process_video F video_path region world cb).framesWritten =
      world.frames.length ∧
    (VideoProcessor.process_video F video_path region world cb).muxRan = true ∧
    world.muxOk = true := by
  unfold VideoProcessor.process_video at h ⊢
  by_cases hguard : video_path.getD "" = "" ∨ region = none
  · rw [if_pos hguard] at h
    exact absurd h (by simp)
  · rw [if_neg hguard] at h ⊢
    by_cases hcap : world.capOpened = true
    · have hcap2 : ¬¬world.capOpened = true := by simp [hcap]
      rw [if_neg hcap2] at h ⊢
      by_cases hex : (VideoProcessor.runLoop F world.total_frames cb
          world.frames 0).2.2 = VideoProcessor.LoopExit.completed
      · rw [if_pos hex] at h ⊢
        by_cases hmux : world.muxOk = true
        · rw [if_pos hmux] at h ⊢
          refine ⟨?_, rfl, hmux⟩
          have := VideoProcessor.runLoop_count F world.total_frames cb
            world.frames 0 hex
          simpa using this
        · rw [if_neg hmux] at h
          exact absurd h (by simp)
      · rw [if_neg hex] at h
        exact absurd h (by simp)
    · rw [if_pos (by simp [hcap])] at h
      exact absurd h (by simp)

/-- C4 witness: a fully successful run (two frames, callback always
continues, mux succeeds) returns True, and by the theorem it wrote both
frames and its mux ran and succeeded. -/
theorem C4_witness :
    (VideoProcessor.process_video ℕ (some "input.mp4") (some (0, 0, 2, 2))
        ⟨true, [3, 4], 2, true⟩ (fun _ _ => true)).ret = true ∧
    ((VideoProcessor.process_video ℕ (some "input.mp4") (some (0, 0, 2, 2))
        ⟨true, [3, 4], 2, true⟩ (fun _ _ => true)).framesWritten = 2 ∧
     (VideoProcessor.process_video ℕ (some "input.mp4") (some (0, 0, 2, 2))
        ⟨true, [3, 4], 2, true⟩ (fun _ _ => true)).muxRan = true ∧
     true = true) :=
  ⟨by decide, C4_success_requires_all_frames_and_mux ℕ (some "input.mp4")
    (some (0, 0, 2, 2)) ⟨true, [3, 4], 2, true⟩ (fun _ _ => true) (by decide)⟩

/-- C6.  Every contour kept as a detection candidate satisfies the
strict pre-padding area bounds min_area < area < max_area (0.001 and
0.2 times the frame area), and when no contour satisfies them the
detector returns none. -/
theorem C6_area_bounds (im : ImageProcessor.DecodedImage) :
    (∀ c ∈ ImageProcessor.valid_contours im,
      ImageProcessor.min_area im < c.area ∧ c.area < ImageProcessor.max_area im) ∧
    (ImageProcessor.valid_contours im = [] →
      ImageProcessor.auto_detect_watermark (some im) = Except.ok none) := by
  constructor
  · intro c hc
    have hmem := List.mem_filter.mp hc
    exact of_decide_eq_true hmem.2
  · intro hval
    have hres : ImageProcessor.detect_result im = none := by
      cases him : im.contours with
      | nil => simp [ImageProcessor.detect_result, him]
      | cons a l => simp [ImageProcessor.detect_result, him, hval]
    simp [ImageProcessor.auto_detect_watermark, hres]

/-- C6 witness: a 100 by 100 frame with a single contour of area 50 and
bounding rectangle (10, 10, 10, 10); the contour is kept, and by the
theorem its area lies strictly between the two thresholds (10 and
2000). -/
theorem C6_witness :
    (⟨50, 10, 10, 10, 10⟩ : ImageProcessor.Contour) ∈
      ImageProcessor.valid_contours ⟨100, 100, [⟨50, 10, 10, 10, 10⟩]⟩ ∧
    (ImageProcessor.min_area ⟨100, 100, [⟨50, 10, 10, 10, 10⟩]⟩ < 50 ∧
      (50 : ℚ) < ImageProcessor.max_area ⟨100, 100, [⟨50, 10, 10, 10, 10⟩]⟩) := by
  have hmem : (⟨50, 10, 10, 10, 10⟩ : ImageProcessor.Contour) ∈
      ImageProcessor.valid_contours ⟨100, 100, [⟨50, 10, 10, 10, 10⟩]⟩ :=
    List.mem_filter.mpr ⟨List.mem_singleton_self _, by
      simp only [decide_eq_true_eq]
      norm_num [ImageProcessor.min_area, ImageProcessor.max_area]⟩
  exact ⟨hmem, (C6_area_bounds ⟨100, 100, [⟨50, 10, 10, 10, 10⟩]⟩).1
    ⟨50, 10, 10, 10, 10⟩ hmem⟩

/-- C7 counterexample.  The claim says detection never raises and in
particular returns none when the source image cannot be decoded; on an
undecodable source the code instead raises ValueError, modelled as the
error result, which is not an ok result. -/
theorem C7_counterexample :
    ImageProcessor.auto_detect_watermark none = Except.error "cannot read image" ∧
    (ImageProcessor.auto_detect_watermark none).toOption = none :=
  ⟨rfl, rfl⟩

/-- C7 as amended.  auto_detect_watermark raises ValueError when the
source image cannot be decoded; when decoding succeeds the remainder of
the detection pipeline raises nothing, returning some result (none when
no candidate survives). -/
theorem C7_no_raise_after_decode (im : ImageProcessor.DecodedImage) :
    ∃ r, ImageProcessor.auto_detect_watermark (some im) = Except.ok r :=
  ⟨ImageProcessor.detect_result im, rfl⟩

/-- C9 counterexample.  The claim says the stored region is clamped at
construction so that the Region invariant holds for the target frame.
Calling set_watermark_region with x = -5 and width 200 against a
100 by 100 frame stores the arguments verbatim, and the invariant fails
(negative x, x + width beyond the frame). -/
theorem C9_counterexample :
    ImageProcessor.set_watermark_region (-5) 0 200 10 = (-5, 0, 200, 10) ∧
    decide (regionInvariant 100 100
      (ImageProcessor.set_watermark_region (-5) 0 200 10)) = false ∧
    (-5 : ℤ) < 0 ∧ (100 : ℤ) < -5 + 200 := by
  refine ⟨rfl, ?_, by decide, by decide⟩
  decide

/-- C9 as amended.  Both set_watermark_region implementations store
their arguments verbatim, with no clamping (the video variant applies
int(), the identity on integers); consequently the stored region
satisfies the Region invariant for a frame exactly when the arguments
already do. -/
theorem C9_region_stored_verbatim (x y w h frameW frameH : ℤ) :
    ImageProcessor.set_watermark_region x y w h = (x, y, w, h) ∧
    VideoProcessor.set_watermark_region x y w h = (x, y, w, h) ∧
    regionInvariant frameW frameH (ImageProcessor.set_watermark_region x y w h) =
      (0 ≤ x ∧ 0 ≤ y ∧ x + w ≤ frameW ∧ y + h ≤ frameH) :=
  ⟨rfl, rfl, rfl⟩

/-- C10.  process_frame is total (the source catches every exception of
the reconstruction step): a missing frame is passed through as None, a
missing region returns the frame unchanged, and a failing reconstruction
returns the frame unchanged, so no per-frame failure aborts a run. -/
theorem C10_process_frame_never_raises (F : Type)
    (region : Option (ℤ × ℤ × ℤ × ℤ)) (radius : ℕ) (method : String)
    (inpaint : F → (ℤ × ℤ × ℤ × ℤ) → ℕ → InpaintFlag → Except String F)
    (frame : Option F) :
    (frame = none →
      VideoProcessor.process_frame F region radius method inpaint frame = none) ∧
    (region = none →
      VideoProcessor.process_frame F region radius method inpaint frame = frame) ∧
    (∀ f r e, frame = some f → region = some r →
      inpaint f r radius
        (if method = "telea" then InpaintFlag.telea else InpaintFlag.ns) =
          Except.error e →
      VideoProcessor.process_frame F region radius method inpaint frame = some f) := by
  refine ⟨?_, ?_, ?_⟩
  · intro hf
    subst hf
    rfl
  · intro hr
    subst hr
    cases frame <;> rfl
  · intro f r e hf hr herr
    subst hf
    subst hr
    simp [VideoProcessor.process_frame, herr]

/-- C10 witness: a concrete frame with a set region and a
reconstruction oracle that always fails; the frame passes through
unchanged. -/
theorem C10_witness :
    VideoProcessor.process_frame ℕ (some (1, 1, 2, 2)) 3 "telea"
      (fun _ _ _ _ => Except.error "inpaint failed") (some 7) = some 7 :=
  (C10_process_frame_never_raises ℕ (some (1, 1, 2, 2)) 3 "telea"
    (fun _ _ _ _ => Except.error "inpaint failed") (some 7)).2.2 7 (1, 1, 2, 2)
    "inpaint failed" rfl rfl rfl

/-- Helper: the first delivered progress value of the frame loop, when
one exists, is the progress of the first processed frame. -/
theorem VideoProcessor.runLoop_head (F : Type) (N : ℕ) (cb : ℕ → ℚ → Bool)
    (l : List F) (i : ℕ) (p : ℚ) (hN : N ≠ 0)
    (hp : (VideoProcessor.runLoop F N cb l i).1.head? = some p) :
    p = ((i + 1 : ℕ) : ℚ) / (N : ℚ) * 100 := by
  cases l with
  | nil =>
    rw [VideoProcessor.runLoop_nil] at hp
    simp at hp
  | cons a rest =>
    by_cases hcb : cb i (((i + 1 : ℕ) : ℚ) / (N : ℚ) * 100)
    · rw [VideoProcessor.runLoop_cons_continue F N cb a rest i hN hcb] at hp
      simp only [List.head?_cons, Option.some.injEq] at hp
      exact hp.symm
    · rw [VideoProcessor.runLoop_cons_stop F N cb a rest i hN
        (Bool.of_not_eq_true hcb)] at hp
      simp only [List.head?_cons, Option.some.injEq] at hp
      exact hp.symm

/-- Helper: the delivered progress values of the frame loop are
non-decreasing. -/
theorem VideoProcessor.runLoop_chain (F : Type) (N : ℕ) (cb : ℕ → ℚ → Bool) :
    ∀ (l : List F) (i : ℕ),
      List.Chain' (· ≤ ·) (VideoProcessor.runLoop F N cb l i).1 := by
  intro l
  induction l with
  | nil =>
    intro i
    rw [VideoProcessor.runLoop_nil]
    exact List.chain'_nil
  | cons a rest ih =>
    intro i
    by_cases hN : N = 0
    · subst hN
      rw [VideoProcessor.runLoop_cons_zero]
      exact List.chain'_nil
    · by_cases hcb : cb i (((i + 1 : ℕ) : ℚ) / (N : ℚ) * 100)
      · rw [VideoProcessor.runLoop_cons_continue F N cb a rest i hN hcb]
        refine List.chain'_cons'.mpr ⟨?_, ih (i + 1)⟩
        intro q hq
        have hq2 := VideoProcessor.runLoop_head F N cb rest (i + 1) q hN hq
        subst hq2
        have hN0 : (0 : ℚ) < (N : ℚ) := by
          exact_mod_cast Nat.pos_of_ne_zero hN
        have hle : ((i + 1 : ℕ) : ℚ) ≤ ((i + 1 + 1 : ℕ) : ℚ) := by
          exact_mod_cast Nat.le_succ (i + 1)
        gcongr
      · rw [VideoProcessor.runLoop_cons_stop F N cb a rest i hN
          (Bool.of_not_eq_true hcb)]
        exact List.chain'_singleton _

/-- Helper: every delivered progress value equals j / total_frames * 100
for some frame index j with i < j ≤ i plus the number of frames. -/
theorem VideoProcessor.runLoop_mem (F : Type) (N : ℕ) (cb : ℕ → ℚ → Bool) :
    ∀ (l : List F) (i : ℕ) (p : ℚ), p ∈ (VideoProcessor.runLoop F N cb l i).1 →
      ∃ j : ℕ, i < j ∧ j ≤ i + l.length ∧ p = ((j : ℕ) : ℚ) / (N : ℚ) * 100 := by
  intro l
  induction l with
  | nil =>
    intro i p hp
    rw [VideoProcessor.runLoop_nil] at hp
    simp at hp
  | cons a rest ih =>
    intro i p hp
    by_cases hN : N = 0
    · subst hN
      rw [VideoProcessor.runLoop_cons_zero] at hp
      simp at hp
    · by_cases hcb : cb i (((i + 1 : ℕ) : ℚ) / (N : ℚ) * 100)
      · rw [VideoProcessor.runLoop_cons_continue F N cb a rest i hN hcb] at hp
        rcases List.mem_cons.mp hp with h1 | h2
        · exact ⟨i + 1, by omega, by simp [List.length_cons], h1⟩
        · rcases ih (i + 1) p h2 with ⟨j, hj1, hj2, hj3⟩
          refine ⟨j, by omega, ?_, hj3⟩
          simp only [List.length_cons]
          omega
      · rw [VideoProcessor.runLoop_cons_stop F N cb a rest i hN
          (Bool.of_not_eq_true hcb)] at hp
        rcases List.mem_singleton.mp hp with h1
        exact ⟨i + 1, by omega, by simp [List.length_cons], h1⟩

/-- Helper: on a completed loop over at least one frame, the last
delivered progress value is that of the final frame. -/
theorem VideoProcessor.runLoop_completed_last (F : Type) (N : ℕ)
    (cb : ℕ → ℚ → Bool) :
    ∀ (l : List F) (i : ℕ), l ≠ [] →
      (VideoProcessor.runLoop F N cb l i).2.2 = VideoProcessor.LoopExit.completed →
      (VideoProcessor.runLoop F N cb l i).1.getLast? =
        some (((i + l.length : ℕ) : ℚ) / (N : ℚ) * 100) := by
  intro l
  induction l with
  | nil =>
    intro i hne
    exact absurd rfl hne
  | cons a rest ih =>
    intro i _ hex
    by_cases hN : N = 0
    · subst hN
      rw [VideoProcessor.runLoop_cons_zero] at hex
      simp at hex
    · by_cases hcb : cb i (((i + 1 : ℕ) : ℚ) / (N : ℚ) * 100)
      · rw [VideoProcessor.runLoop_cons_continue F N cb a rest i hN hcb] at hex ⊢
        have hex2 : (VideoProcessor.runLoop F N cb rest (i + 1)).2.2 =
            VideoProcessor.LoopExit.completed := hex
        by_cases hrestnil : rest = []
        · subst hrestnil
          rw [VideoProcessor.runLoop_nil]
          simp
        · have hlast := ih (i + 1) hrestnil hex2
          have harith : i + 1 + rest.length = i + (a :: rest).length := by
            simp only [List.length_cons]
            omega
          rcases hlog : (VideoProcessor.runLoop F N cb rest (i + 1)).1 with _ | ⟨q, log2⟩
          · rw [hlog] at hlast
            simp at hlast
          · rw [hlog] at hlast
            have hgoal : ((((i + 1 : ℕ) : ℚ) / (N : ℚ) * 100) :: q :: log2).getLast? =
                some (((i + (a :: rest).length : ℕ) : ℚ) / (N : ℚ) * 100) := by
              rw [List.getLast?_cons_cons, hlast, harith]
            exact hgoal
      · rw [VideoProcessor.runLoop_cons_stop F N cb a rest i hN
          (Bool.of_not_eq_true hcb)] at hex
        simp at hex

/-- C8.  Under the decoder contract (the metadata frame count is
positive and equals the number of frames the capture yields), the
progress values process_video delivers to the callback are
non-decreasing, each lies in [0, 100], and on a fully successful run
the final delivered value is 100. -/
theorem C8_progress_monotone (F : Type) (video_path : Option String)
    (region : Option (ℤ × ℤ × ℤ × ℤ)) (world : VideoProcessor.VideoWorld F)
    (cb : ℕ → ℚ → Bool)
    (hlen : world.frames.length = world.total_frames)
    (hpos : 0 < world.total_frames) :
    List.Chain' (· ≤ ·)
      (VideoProcessor.process_video F video_path region world cb).progressLog ∧
    (∀ p ∈ (VideoProcessor.process_video F video_path region world cb).progressLog,
      0 ≤ p ∧ p ≤ 100) ∧
    ((VideoProcessor.process_video F video_path region world cb).ret = true →
      (VideoProcessor.process_video F video_path region world cb).progressLog.getLast? =
        some 100) := by
  have hNne : world.total_frames ≠ 0 := Nat.pos_iff_ne_zero.mp hpos
  have hN0 : (0 : ℚ) < (world.total_frames : ℚ) := by exact_mod_cast hpos
  have hmain : ∀ p ∈ (VideoProcessor.runLoop F world.total_frames cb
      world.frames 0).1, 0 ≤ p ∧ p ≤ 100 := by
    intro p hp
    rcases VideoProcessor.runLoop_mem F world.total_frames cb world.frames 0 p hp
      with ⟨j, hj1, hj2, hj3⟩
    subst hj3
    constructor
    · positivity
    · have hjN : (j : ℚ) ≤ (world.total_frames : ℚ) := by
        have : j ≤ world.total_frames := by omega
        exact_mod_cast this
      have hdiv : (j : ℚ) / (world.total_frames : ℚ) ≤ 1 :=
        (div_le_one hN0).mpr hjN
      linarith
  have hlast : (VideoProcessor.runLoop F world.total_frames cb
        world.frames 0).2.2 = VideoProcessor.LoopExit.completed →
      (VideoProcessor.runLoop F world.total_frames cb world.frames 0).1.getLast? =
        some 100 := by
    intro hex
    have hne : world.frames ≠ [] := by
      intro hnil
      rw [hnil] at hlen
      simp at hlen
      omega
    have h100 := VideoProcessor.runLoop_completed_last F world.total_frames cb
      world.frames 0 hne hex
    rw [h100]
    have : ((0 + world.frames.length : ℕ) : ℚ) = (world.total_frames : ℚ) := by
      rw [Nat.zero_add, hlen]
    rw [this, div_self (ne_of_gt hN0)]
    norm_num
  unfold VideoProcessor.process_video
  by_cases hguard : video_path.getD "" = "" ∨ region = none
  · rw [if_pos hguard]
    refine ⟨List.chain'_nil, ?_, ?_⟩
    · intro p hp
      simp at hp
    · intro hret
      simp at hret
  · rw [if_neg hguard]
    by_cases hcap : world.capOpened = true
    · rw [if_neg (show ¬¬world.capOpened = true by simp [hcap])]
      by_cases hex : (VideoProcessor.runLoop F world.total_frames cb
          world.frames 0).2.2 = VideoProcessor.LoopExit.completed
      · rw [if_pos hex]
        by_cases hmux : world.muxOk = true
        · rw [if_pos hmux]
          exact ⟨VideoProcessor.runLoop_chain F world.total_frames cb world.frames 0,
            hmain, fun _ => hlast hex⟩
        · rw [if_neg hmux]
          refine ⟨VideoProcessor.runLoop_chain F world.total_frames cb world.frames 0,
            hmain, ?_⟩
          intro hret
          simp at hret
      · rw [if_neg hex]
        refine ⟨VideoProcessor.runLoop_chain F world.total_frames cb world.frames 0,
          hmain, ?_⟩
        intro hret
        simp at hret
    · rw [if_pos (by simp [hcap])]
      refine ⟨List.chain'_nil, ?_, ?_⟩
      · intro p hp
        simp at hp
      · intro hret
        simp at hret

/-- C8 witness: a two-frame run whose callback always continues and
whose mux succeeds; the metadata count matches, the delivered values
are 50 then 100, and the theorem yields monotonicity, the bounds, and
the final value 100. -/
theorem C8_witness :
    ((⟨true, [5, 6], 2, true⟩ : VideoProcessor.VideoWorld ℕ).frames.length =
      (⟨true, [5, 6], 2, true⟩ : VideoProcessor.VideoWorld ℕ).total_frames ∧
     0 < (⟨true, [5, 6], 2, true⟩ : VideoProcessor.VideoWorld ℕ).total_frames) ∧
    (List.Chain' (· ≤ ·)
      (VideoProcessor.process_video ℕ (some "input.mp4") (some (0, 0, 1, 1))
        ⟨true, [5, 6], 2, true⟩ (fun _ _ => true)).progressLog ∧
    (∀ p ∈ (VideoProcessor.process_video ℕ (some "input.mp4") (some (0, 0, 1, 1))
        ⟨true, [5, 6], 2, true⟩ (fun _ _ => true)).progressLog, 0 ≤ p ∧ p ≤ 100) ∧
    ((VideoProcessor.process_video ℕ (some "input.mp4") (some (0, 0, 1, 1))
        ⟨true, [5, 6], 2, true⟩ (fun _ _ => true)).ret = true →
      (VideoProcessor.process_video ℕ (some "input.mp4") (some (0, 0, 1, 1))
        ⟨true, [5, 6], 2, true⟩ (fun _ _ => true)).progressLog.getLast? = some 100)) :=
  ⟨⟨rfl, by decide⟩, C8_progress_monotone ℕ (some "input.mp4") (some (0, 0, 1, 1))
    ⟨true, [5, 6], 2, true⟩ (fun _ _ => true) rfl (by decide)⟩

/-- Python int() agrees with the floor on nonnegative rationals. -/
theorem pyInt_of_nonneg (q : ℚ) (hq : 0 ≤ q) : pyInt q = ⌊q⌋ :=
  if_pos hq

/-- Helper: one coordinate sent native-to-display through the pixmap
scale (the floor of the native size times the scale factor, divided by
the native size) and back through division by the scale factor lands in
[0, a], and undershoots a by less than 2 / f. -/
theorem ImageLabel.roundtrip_bound (M : ℕ) (f : ℚ) (a : ℤ)
    (hM : 0 < M) (hf : 0 < f) (ha : 0 ≤ a) (haM : a ≤ (M : ℤ)) :
    0 ≤ ((⌊(a : ℚ) * ((⌊(M : ℚ) * f⌋ : ℚ) / (M : ℚ))⌋ : ℚ) / f) ∧
    ((⌊(a : ℚ) * ((⌊(M : ℚ) * f⌋ : ℚ) / (M : ℚ))⌋ : ℚ) / f) ≤ (a : ℚ) ∧
    (a : ℚ) - 2 / f < ((⌊(a : ℚ) * ((⌊(M : ℚ) * f⌋ : ℚ) / (M : ℚ))⌋ : ℚ) / f) := by
  have hM0 : (0 : ℚ) < (M : ℚ) := by exact_mod_cast hM
  have ha0 : (0 : ℚ) ≤ (a : ℚ) := by exact_mod_cast ha
  have haM0 : (a : ℚ) ≤ (M : ℚ) := by exact_mod_cast haM
  have hp0 : (0 : ℚ) ≤ ((⌊(M : ℚ) * f⌋ : ℤ) : ℚ) := by
    have : (0 : ℤ) ≤ ⌊(M : ℚ) * f⌋ := Int.floor_nonneg.mpr (by positivity)
    exact_mod_cast this
  have hple : ((⌊(M : ℚ) * f⌋ : ℤ) : ℚ) ≤ (M : ℚ) * f := Int.floor_le _
  have hpgt : (M : ℚ) * f - 1 < ((⌊(M : ℚ) * f⌋ : ℤ) : ℚ) := Int.sub_one_lt_floor _
  set s : ℚ := ((⌊(M : ℚ) * f⌋ : ℤ) : ℚ) / (M : ℚ) with hs
  have hs0 : 0 ≤ s := by positivity
  have hsf : s ≤ f := by
    rw [hs, div_le_iff₀ hM0]
    linarith [mul_comm (M : ℚ) f]
  have hu0 : (0 : ℚ) ≤ ((⌊(a : ℚ) * s⌋ : ℤ) : ℚ) := by
    have : (0 : ℤ) ≤ ⌊(a : ℚ) * s⌋ := Int.floor_nonneg.mpr (mul_nonneg ha0 hs0)
    exact_mod_cast this
  have hule : ((⌊(a : ℚ) * s⌋ : ℤ) : ℚ) ≤ (a : ℚ) * s := Int.floor_le _
  have hugt : (a : ℚ) * s - 1 < ((⌊(a : ℚ) * s⌋ : ℤ) : ℚ) := Int.sub_one_lt_floor _
  refine ⟨by positivity, ?_, ?_⟩
  · rw [div_le_iff₀ hf]
    have h1 : (a : ℚ) * s ≤ (a : ℚ) * f := mul_le_mul_of_nonneg_left hsf ha0
    linarith
  · rw [lt_div_iff₀ hf]
    have hexp : ((a : ℚ) - 2 / f) * f = (a : ℚ) * f - 2 := by
      field_simp
    rw [hexp]
    have h1 : f - 1 / (M : ℚ) < s := by
      rw [hs, lt_div_iff₀ hM0]
      have h2 : (f - 1 / (M : ℚ)) * (M : ℚ) = f * (M : ℚ) - 1 := by
        field_simp
      rw [h2]
      linarith [mul_comm (M : ℚ) f]
    have h2 : (a : ℚ) * (f - 1 / (M : ℚ)) ≤ (a : ℚ) * s :=
      mul_le_mul_of_nonneg_left (le_of_lt h1) ha0
    have h3 : (a : ℚ) / (M : ℚ) ≤ 1 := by
      rw [div_le_one hM0]
      exact haM0
    have h4 : (a : ℚ) * (f - 1 / (M : ℚ)) = (a : ℚ) * f - (a : ℚ) / (M : ℚ) := by
      ring
    rw [h4] at h2
    linarith

/-- C5 counterexample.  At display scale 1/10 (a 4000 by 3000 image in
a 400 by 300 label) the native region (15, 15, 100, 100), mapped to
display coordinates as detect_watermark does and back through
get_scaled_rect, comes back as (10, 10, 100, 100): the x and y
components are off by 5 pixels, beyond the claimed 1, for a region well
inside the bounds and a positive scale factor. -/
theorem C5_counterexample :
    ImageLabel.roundTrip (1 / 10) 4000 3000 0 0 ⟨15, 15, 100, 100⟩ =
      ⟨10, 10, 100, 100⟩ ∧
    ((15 : ℤ) - 10 = 5 ∧ (1 : ℤ) < 5) ∧
    (0 : ℚ) < 1 / 10 ∧ (15 : ℤ) + 100 ≤ 4000 ∧ (15 : ℤ) + 100 ≤ 3000 := by
  refine ⟨?_, ⟨by norm_num, by norm_num⟩, by norm_num, by norm_num, by norm_num⟩
  norm_num [ImageLabel.roundTrip, ImageLabel.get_scaled_rect,
    ImageLabel.detectToDisplay, pyInt]

/-- C5 as amended.  Mapping a native region inside the bounds to display
coordinates and back recovers each component from below: each recovered
component is at most the original and undershoots it by strictly less
than 2 / scale + 1 pixels.  The claimed plus-minus one bound therefore
holds whenever the display scale factor is at least 2, but fails for
downscaled previews (scale below 1), where the error grows like the
reciprocal of the scale. -/
theorem C5_roundtrip_within_scale_bound (f : ℚ) (origW origH : ℕ) (px py : ℤ)
    (r : ImageLabel.PyRect) (hW : 0 < origW) (hH : 0 < origH) (hf : 0 < f)
    (hx : 0 ≤ r.x) (hy : 0 ≤ r.y) (hw : 0 ≤ r.w) (hh : 0 ≤ r.h)
    (hxw : r.x + r.w ≤ (origW : ℤ)) (hyh : r.y + r.h ≤ (origH : ℤ)) :
    ((ImageLabel.roundTrip f origW origH px py r).x ≤ r.x ∧
      ((r.x - (ImageLabel.roundTrip f origW origH px py r).x : ℤ) : ℚ) < 2 / f + 1) ∧
    ((ImageLabel.roundTrip f origW origH px py r).y ≤ r.y ∧
      ((r.y - (ImageLabel.roundTrip f origW origH px py r).y : ℤ) : ℚ) < 2 / f + 1) ∧
    ((ImageLabel.roundTrip f origW origH px py r).w ≤ r.w ∧
      ((r.w - (ImageLabel.roundTrip f origW origH px py r).w : ℤ) : ℚ) < 2 / f + 1) ∧
    ((ImageLabel.roundTrip f origW origH px py r).h ≤ r.h ∧
      ((r.h - (ImageLabel.roundTrip f origW origH px py r).h : ℤ) : ℚ) < 2 / f + 1) ∧
    (2 ≤ f →
      r.x - (ImageLabel.roundTrip f origW origH px py r).x ≤ 1 ∧
      r.y - (ImageLabel.roundTrip f origW origH px py r).y ≤ 1 ∧
      r.w - (ImageLabel.roundTrip f origW origH px py r).w ≤ 1 ∧
      r.h - (ImageLabel.roundTrip f origW origH px py r).h ≤ 1) := by
  obtain ⟨hX0, hXle, hXgt⟩ := ImageLabel.roundtrip_bound origW f r.x hW hf hx (by omega)
  obtain ⟨hWc0, hWcle, hWcgt⟩ := ImageLabel.roundtrip_bound origW f r.w hW hf hw (by omega)
  obtain ⟨hY0, hYle, hYgt⟩ := ImageLabel.roundtrip_bound origH f r.y hH hf hy (by omega)
  obtain ⟨hHc0, hHcle, hHcgt⟩ := ImageLabel.roundtrip_bound origH f r.h hH hf hh (by omega)
  have hsxW : (0 : ℚ) ≤ (⌊(origW : ℚ) * f⌋ : ℚ) / (origW : ℚ) := by
    have h1 : (0 : ℤ) ≤ ⌊(origW : ℚ) * f⌋ := Int.floor_nonneg.mpr (by positivity)
    have h2 : (0 : ℚ) ≤ (⌊(origW : ℚ) * f⌋ : ℚ) := by exact_mod_cast h1
    exact div_nonneg h2 (Nat.cast_nonneg origW)
  have hsxH : (0 : ℚ) ≤ (⌊(origH : ℚ) * f⌋ : ℚ) / (origH : ℚ) := by
    have h1 : (0 : ℤ) ≤ ⌊(origH : ℚ) * f⌋ := Int.floor_nonneg.mpr (by positivity)
    have h2 : (0 : ℚ) ≤ (⌊(origH : ℚ) * f⌋ : ℚ) := by exact_mod_cast h1
    exact div_nonneg h2 (Nat.cast_nonneg origH)
  have hrxW : (r.x : ℚ) ≤ (origW : ℚ) := by exact_mod_cast (by omega : r.x ≤ (origW : ℤ))
  have hryH : (r.y : ℚ) ≤ (origH : ℚ) := by exact_mod_cast (by omega : r.y ≤ (origH : ℤ))
  have hxwQ : (r.x : ℚ) + (r.w : ℚ) ≤ (origW : ℚ) := by exact_mod_cast hxw
  have hyhQ : (r.y : ℚ) + (r.h : ℚ) ≤ (origH : ℚ) := by exact_mod_cast hyh
  have hRTx : (ImageLabel.roundTrip f origW origH px py r).x =
      ⌊((⌊(r.x : ℚ) * ((⌊(origW : ℚ) * f⌋ : ℚ) / (origW : ℚ))⌋ : ℚ) / f)⌋ := by
    show pyInt (max 0 (min ((((pyInt ((r.x : ℚ) *
        ((⌊(origW : ℚ) * f⌋ : ℚ) / (origW : ℚ))) + px) - px : ℤ) : ℚ) / f)
        (origW : ℚ))) = _
    rw [add_sub_cancel_right,
      pyInt_of_nonneg _ (mul_nonneg (by exact_mod_cast hx) hsxW),
      min_eq_left (le_trans hXle hrxW), max_eq_right hX0, pyInt_of_nonneg _ hX0]
  have hRTy : (ImageLabel.roundTrip f origW origH px py r).y =
      ⌊((⌊(r.y : ℚ) * ((⌊(origH : ℚ) * f⌋ : ℚ) / (origH : ℚ))⌋ : ℚ) / f)⌋ := by
    show pyInt (max 0 (min ((((pyInt ((r.y : ℚ) *
        ((⌊(origH : ℚ) * f⌋ : ℚ) / (origH : ℚ))) + py) - py : ℤ) : ℚ) / f)
        (origH : ℚ))) = _
    rw [add_sub_cancel_right,
      pyInt_of_nonneg _ (mul_nonneg (by exact_mod_cast hy) hsxH),
      min_eq_left (le_trans hYle hryH), max_eq_right hY0, pyInt_of_nonneg _ hY0]
  have hRTw : (ImageLabel.roundTrip f origW origH px py r).w =
      ⌊((⌊(r.w : ℚ) * ((⌊(origW : ℚ) * f⌋ : ℚ) / (origW : ℚ))⌋ : ℚ) / f)⌋ := by
    show pyInt (min (((pyInt ((r.w : ℚ) *
        ((⌊(origW : ℚ) * f⌋ : ℚ) / (origW : ℚ))) : ℤ) : ℚ) / f)
        ((origW : ℚ) - max 0 (min ((((pyInt ((r.x : ℚ) *
          ((⌊(origW : ℚ) * f⌋ : ℚ) / (origW : ℚ))) + px) - px : ℤ) : ℚ) / f)
          (origW : ℚ)))) = _
    rw [add_sub_cancel_right,
      pyInt_of_nonneg ((r.x : ℚ) * _) (mul_nonneg (by exact_mod_cast hx) hsxW),
      pyInt_of_nonneg ((r.w : ℚ) * _) (mul_nonneg (by exact_mod_cast hw) hsxW),
      min_eq_left (le_trans hXle hrxW), max_eq_right hX0]
    rw [min_eq_left (by linarith), pyInt_of_nonneg _ hWc0]
  have hRTh : (ImageLabel.roundTrip f origW origH px py r).h =
      ⌊((⌊(r.h : ℚ) * ((⌊(origH : ℚ) * f⌋ : ℚ) / (origH : ℚ))⌋ : ℚ) / f)⌋ := by
    show pyInt (min (((pyInt ((r.h : ℚ) *
        ((⌊(origH : ℚ) * f⌋ : ℚ) / (origH : ℚ))) : ℤ) : ℚ) / f)
        ((origH : ℚ) - max 0 (min ((((pyInt ((r.y : ℚ) *
          ((⌊(origH : ℚ) * f⌋ : ℚ) / (origH : ℚ))) + py) - py : ℤ) : ℚ) / f)
          (origH : ℚ)))) = _
    rw [add_sub_cancel_right,
      pyInt_of_nonneg ((r.y : ℚ) * _) (mul_nonneg (by exact_mod_cast hy) hsxH),
      pyInt_of_nonneg ((r.h : ℚ) * _) (mul_nonneg (by exact_mod_cast hh) hsxH),
      min_eq_left (le_trans hYle hryH), max_eq_right hY0]
    rw [min_eq_left (by linarith), pyInt_of_nonneg _ hHc0]
  have cx1 : (ImageLabel.roundTrip f origW origH px py r).x ≤ r.x := by
    rw [hRTx]
    have := Int.floor_le_floor (α := ℚ) hXle
    simpa using this
  have cy1 : (ImageLabel.roundTrip f origW origH px py r).y ≤ r.y := by
    rw [hRTy]
    have := Int.floor_le_floor (α := ℚ) hYle
    simpa using this
  have cw1 : (ImageLabel.roundTrip f origW origH px py r).w ≤ r.w := by
    rw [hRTw]
    have := Int.floor_le_floor (α := ℚ) hWcle
    simpa using this
  have ch1 : (ImageLabel.roundTrip f origW origH px py r).h ≤ r.h := by
    rw [hRTh]
    have := Int.floor_le_floor (α := ℚ) hHcle
    simpa using this
  have cx2 : ((r.x - (ImageLabel.roundTrip f origW origH px py r).x : ℤ) : ℚ) <
      2 / f + 1 := by
    rw [hRTx]
    push_cast
    have hfl := Int.sub_one_lt_floor
      ((⌊(r.x : ℚ) * ((⌊(origW : ℚ) * f⌋ : ℚ) / (origW : ℚ))⌋ : ℚ) / f)
    linarith
  have cy2 : ((r.y - (ImageLabel.roundTrip f origW origH px py r).y : ℤ) : ℚ) <
      2 / f + 1 := by
    rw [hRTy]
    push_cast
    have hfl := Int.sub_one_lt_floor
      ((⌊(r.y : ℚ) * ((⌊(origH : ℚ) * f⌋ : ℚ) / (origH : ℚ))⌋ : ℚ) / f)
    linarith
  have cw2 : ((r.w - (ImageLabel.roundTrip f origW origH px py r).w : ℤ) : ℚ) <
      2 / f + 1 := by
    rw [hRTw]
    push_cast
    have hfl := Int.sub_one_lt_floor
      ((⌊(r.w : ℚ) * ((⌊(origW : ℚ) * f⌋ : ℚ) / (origW : ℚ))⌋ : ℚ) / f)
    linarith
  have ch2 : ((r.h - (ImageLabel.roundTrip f origW origH px py r).h : ℤ) : ℚ) <
      2 / f + 1 := by
    rw [hRTh]
    push_cast
    have hfl := Int.sub_one_lt_floor
      ((⌊(r.h : ℚ) * ((⌊(origH : ℚ) * f⌋ : ℚ) / (origH : ℚ))⌋ : ℚ) / f)
    linarith
  refine ⟨⟨cx1, cx2⟩, ⟨cy1, cy2⟩, ⟨cw1, cw2⟩, ⟨ch1, ch2⟩, ?_⟩
  intro hf2
  have h2f : 2 / f + 1 ≤ 2 := by
    have hdf : 2 / f ≤ 1 := by
      rw [div_le_one hf]
      exact hf2
    linarith
  have bx : ((r.x - (ImageLabel.roundTrip f origW origH px py r).x : ℤ) : ℚ) < 2 := by
    linarith
  have bby : ((r.y - (ImageLabel.roundTrip f origW origH px py r).y : ℤ) : ℚ) < 2 := by
    linarith
  have bw : ((r.w - (ImageLabel.roundTrip f origW origH px py r).w : ℤ) : ℚ) < 2 := by
    linarith
  have bh : ((r.h - (ImageLabel.roundTrip f origW origH px py r).h : ℤ) : ℚ) < 2 := by
    linarith
  have bx2 : r.x - (ImageLabel.roundTrip f origW origH px py r).x < 2 := by
    exact_mod_cast bx
  have by2 : r.y - (ImageLabel.roundTrip f origW origH px py r).y < 2 := by
    exact_mod_cast bby
  have bw2 : r.w - (ImageLabel.roundTrip f origW origH px py r).w < 2 := by
    exact_mod_cast bw
  have bh2 : r.h - (ImageLabel.roundTrip f origW origH px py r).h < 2 := by
    exact_mod_cast bh
  exact ⟨by omega, by omega, by omega, by omega⟩

/-- C5 witness: at scale factor 2 (display upscaled), image 100 by 100,
pixmap offset (3, 7), region (10, 20, 30, 40), the theorem applies and
in particular, since the scale is at least 2, every component round
trips to within one pixel. -/
theorem C5_witness :
    ((0 : ℚ) < 2 ∧ (0 : ℤ) ≤ 10 ∧ (10 : ℤ) + 30 ≤ 100 ∧ (20 : ℤ) + 40 ≤ 100) ∧
    (((ImageLabel.roundTrip 2 100 100 3 7 ⟨10, 20, 30, 40⟩).x ≤ 10 ∧
       ((10 - (ImageLabel.roundTrip 2 100 100 3 7 ⟨10, 20, 30, 40⟩).x : ℤ) : ℚ) <
         2 / 2 + 1) ∧
     ((ImageLabel.roundTrip 2 100 100 3 7 ⟨10, 20, 30, 40⟩).y ≤ 20 ∧
       ((20 - (ImageLabel.roundTrip 2 100 100 3 7 ⟨10, 20, 30, 40⟩).y : ℤ) : ℚ) <
         2 / 2 + 1) ∧
     ((ImageLabel.roundTrip 2 100 100 3 7 ⟨10, 20, 30, 40⟩).w ≤ 30 ∧
       ((30 - (ImageLabel.roundTrip 2 100 100 3 7 ⟨10, 20, 30, 40⟩).w : ℤ) : ℚ) <
         2 / 2 + 1) ∧
     ((ImageLabel.roundTrip 2 100 100 3 7 ⟨10, 20, 30, 40⟩).h ≤ 40 ∧
       ((40 - (ImageLabel.roundTrip 2 100 100 3 7 ⟨10, 20, 30, 40⟩).h : ℤ) : ℚ) <
         2 / 2 + 1) ∧
     ((2 : ℚ) ≤ 2 →
       (10 : ℤ) - (ImageLabel.roundTrip 2 100 100 3 7 ⟨10, 20, 30, 40⟩).x ≤ 1 ∧
       (20 : ℤ) - (ImageLabel.roundTrip 2 100 100 3 7 ⟨10, 20, 30, 40⟩).y ≤ 1 ∧
       (30 : ℤ) - (ImageLabel.roundTrip 2 100 100 3 7 ⟨10, 20, 30, 40⟩).w ≤ 1 ∧
       (40 : ℤ) - (ImageLabel.roundTrip 2 100 100 3 7 ⟨10, 20, 30, 40⟩).h ≤ 1)) :=
  ⟨by norm_num, C5_roundtrip_within_scale_bound 2 100 100 3 7 ⟨10, 20, 30, 40⟩
    (by norm_num) (by norm_num) (by norm_num) (by norm_num) (by norm_num)
    (by norm_num) (by norm_num) (by norm_num) (by norm_num)⟩
